import Mathlib

set_option maxRecDepth 10000

/-!
Verification of the `superintelligence` desktop-automation core against its
natural-language specification.  The Rust sources are shallowly embedded:
pure functions become Lean functions, `&mut Vec` accumulation becomes explicit
state passing, Rust machine integers become `Nat`/`Int` with explicit range
conditions, and operations that can panic return `Option` (`none` = panic).
-/

namespace BB

/-! ## UTF-8 byte-length model

Rust `str::len` is the UTF-8 byte length and `&s[..n]` panics unless `n` is a
character boundary.  `charUtf8Size` is the UTF-8 encoded size of one scalar
value; `takeBytes n cs` returns the characters making up the first `n` bytes,
or `none` when `n` falls inside a character (the Rust slice would panic). -/

def charUtf8Size (c : Char) : Nat :=
  if c.toNat < 0x80 then 1
  else if c.toNat < 0x800 then 2
  else if c.toNat < 0x10000 then 3
  else 4

def utf8Len (s : String) : Nat :=
  (s.data.map charUtf8Size).sum

def takeBytes : Nat → List Char → Option (List Char)
  | 0, _ => some []
  | _ + 1, [] => none
  | n + 1, c :: rest =>
      if charUtf8Size c ≤ n + 1 then
        (takeBytes (n + 1 - charUtf8Size c) rest).map (c :: ·)
      else
        none

def byteSlice (s : String) (n : Nat) : Option String :=
  (takeBytes n s.data).map String.mk

/-- Embeds the value-truncation closure in `Desktop::build_tree`
(`desktop.rs`): `if v.len() > 100 { format!("\x7b\x7d...", &v[..100]) } else { v }`.
`none` models the byte-slice panic. -/
def truncTreeValue (v : String) : Option String :=
  if utf8Len v > 100 then (byteSlice v 100).map (· ++ "...") else some v

/-- Embeds `truncate` in `recorder.rs`:
`if s.len() <= max { s.to_string() } else { format!("\x7b\x7d...", &s[..max-3]) }`.
`none` models the byte-slice panic. -/
def truncate (s : String) (max : Nat) : Option String :=
  if utf8Len s ≤ max then some s else (byteSlice s (max - 3)).map (· ++ "...")

/-! ## Selector engine (`selector.rs`) -/

inductive Attribute where
  | role | name | title | value | description | index
deriving DecidableEq, Repr

inductive MatchOp where
  | equals | contains
deriving DecidableEq, Repr

structure Condition where
  attr : Attribute
  op : MatchOp
  value : String
deriving DecidableEq, Repr

structure Selector where
  conditions : List Condition
deriving DecidableEq, Repr

/-- Occurrence of `needle` as a contiguous substring of the second list,
modelling Rust `str::contains`. -/
def subOccurs (needle : List Char) : List Char → Bool
  | [] => needle.isEmpty
  | c :: rest => needle.isPrefixOf (c :: rest) || subOccurs needle rest

/-- Rust `to_lowercase` restricted to its ASCII action (all comparisons in
this code path are over ASCII selector text). -/
def strLower (s : String) : String :=
  String.mk (s.data.map Char.toLower)

def strContains (hay needle : String) : Bool :=
  subOccurs needle.data hay.data

/-- Embeds `Condition::matches` (`selector.rs` lines 142-157).  The `Index`
attribute returns `false` immediately (source comment: handled separately). -/
def Condition.matches (c : Condition) (role name title value desc : Option String) : Bool :=
  match c.attr with
  | .index => false
  | _ =>
    let target : Option String :=
      match c.attr with
      | .role => role
      | .name => name
      | .title => title
      | .value => value
      | .description => desc
      | .index => none
    match target, c.op with
    | some t, .equals => t == c.value
    | some t, .contains => strContains (strLower t) (strLower c.value)
    | none, _ => false

/-! ## Element model (`element.rs`)

A live `UIElement` is abstracted as a tree of attribute records: the AX
attribute getters (`get_role`, `get_role_desc`, `get_title`, `get_value`,
`get_description`, `get_children` in `accessibility.rs`) become field reads. -/

mutual

inductive Elem where
  | node (role name title value desc : Option String) (children : ElemList)

/-- `Vec<UIElement>` of children, as a mutual inductive so that tree
recursion stays structural (and hence kernel-computable). -/
inductive ElemList where
  | nil
  | cons (e : Elem) (es : ElemList)

end

def ElemList.length : ElemList → Nat
  | .nil => 0
  | .cons _ es => es.length + 1

def Elem.role : Elem → Option String
  | .node r _ _ _ _ _ => r

def Elem.name : Elem → Option String
  | .node _ n _ _ _ _ => n

def Elem.title : Elem → Option String
  | .node _ _ t _ _ _ => t

def Elem.value : Elem → Option String
  | .node _ _ _ v _ _ => v

def Elem.desc : Elem → Option String
  | .node _ _ _ _ d _ => d

def Elem.children : Elem → ElemList
  | .node _ _ _ _ _ cs => cs

/-- Embeds `UIElement::text` (`element.rs` lines 84-89):
`value().or_else(title).or_else(description).or_else(name)`. -/
def Elem.text (e : Elem) : Option String :=
  (((e.value).orElse (fun _ => e.title)).orElse (fun _ => e.desc)).orElse
    (fun _ => e.name)

/-- Modelled from the spec words for C8: the first NON-EMPTY string among
value, title, description, name (an empty string is skipped). -/
def textSpec (e : Elem) : Option String :=
  [e.value, e.title, e.desc, e.name].findSome?
    (fun o => match o with
      | some s => if s = "" then none else some s
      | none => none)

/-- First present (`Some`) field among value, title, description, name; the
amended reading of C8. -/
def textFirstSome (e : Elem) : Option String :=
  [e.value, e.title, e.desc, e.name].findSome? id

/-! ## Locator (`locator.rs`) -/

/-- Embeds `Locator::matches` (`locator.rs` lines 104-126): every condition
must hold, except `Index` conditions which are skipped (`continue`). -/
def Locator.matchesElem (sel : Selector) (e : Elem) : Bool :=
  sel.conditions.all fun cond =>
    cond.attr == Attribute.index ||
      cond.matches e.role e.name e.title e.value e.desc

mutual

/-- Embeds `Locator::find_recursive`: depth-guarded pre-order DFS pushing
matches before descending into children. -/
def Locator.findRecursive (sel : Selector) (maxDepth : Nat) (e : Elem) (depth : Nat) :
    List Elem :=
  match e with
  | .node r n t v d cs =>
    if depth > maxDepth then []
    else
      (if Locator.matchesElem sel (.node r n t v d cs) then [Elem.node r n t v d cs] else []) ++
        Locator.findRecursiveList sel maxDepth cs (depth + 1)

/-- The `for child in get_children(element)` loop of `find_recursive`. -/
def Locator.findRecursiveList (sel : Selector) (maxDepth : Nat) (es : ElemList) (depth : Nat) :
    List Elem :=
  match es with
  | .nil => []
  | .cons c rest =>
    Locator.findRecursive sel maxDepth c depth ++
      Locator.findRecursiveList sel maxDepth rest depth

end

/-- Embeds `Locator::find_all` (`locator.rs` lines 67-88): collect all DFS
matches from the root; indices are attached by enumeration, and no
post-collection filtering by `index` takes place. -/
def Locator.find_all (sel : Selector) (maxDepth : Nat) (root : Elem) : List Elem :=
  Locator.findRecursive sel maxDepth root 0

inductive FindErr where
  | elementNotFound
  | multipleMatches (n : Nat)
deriving DecidableEq, Repr

/-- Embeds `Locator::find` (`locator.rs` lines 46-65). -/
def Locator.find (sel : Selector) (maxDepth : Nat) (root : Elem) : Except FindErr Elem :=
  let elements := Locator.find_all sel maxDepth root
  if elements.isEmpty then .error .elementNotFound
  else if elements.length > 1 then .error (.multipleMatches elements.length)
  else match elements with
    | e :: _ => .ok e
    | [] => .error .elementNotFound

/-! ## Desktop tree walk (`desktop.rs`) -/

structure TreeNode where
  index : Nat
  role : String
  name : Option String
  title : Option String
  value : Option String
  depth : Nat
  children_count : Nat
deriving DecidableEq, Repr

structure TreeResult where
  app : String
  element_count : Nat
  nodes : List TreeNode
deriving DecidableEq, Repr

/-- The `element.value().map(truncation closure)` step of `build_tree`;
`none` models a panic inside the closure. -/
def truncOptValue : Option String → Option (Option String)
  | none => some none
  | some v => (truncTreeValue v).map some

mutual

/-- Embeds `Desktop::build_tree` (`desktop.rs` lines 144-180).  The two
`&mut` parameters (`nodes`, `index`) are threaded explicitly; the result is
`none` when the value-truncation slice panics. -/
def buildTree (e : Elem) (depth maxDepth : Nat) (nodes : List TreeNode) (index : Nat) :
    Option (List TreeNode × Nat) :=
  match e with
  | .node r n t v d cs =>
    if depth > maxDepth then some (nodes, index)
    else
      match truncOptValue v with
      | none => none
      | some tv =>
        let node : TreeNode :=
          { index := index
            role := r.getD "Unknown"
            name := n
            title := t
            value := tv
            depth := depth
            children_count := cs.length }
        buildTreeList cs (depth + 1) maxDepth (nodes ++ [node]) (index + 1)

/-- The `for child in children` loop of `build_tree`. -/
def buildTreeList (es : ElemList) (depth maxDepth : Nat) (nodes : List TreeNode) (index : Nat) :
    Option (List TreeNode × Nat) :=
  match es with
  | .nil => some (nodes, index)
  | .cons c rest =>
    match buildTree c depth maxDepth nodes index with
    | none => none
    | some (nodes', index') => buildTreeList rest depth maxDepth nodes' index'

end

/-- Embeds `Desktop::tree` (`desktop.rs` lines 129-142) for a given app root
element (the `app_root` lookup is abstracted to the root itself). -/
def Desktop.tree (app : String) (root : Elem) (maxDepth : Nat) : Option TreeResult :=
  (buildTree root 0 maxDepth [] 0).map fun p =>
    { app := app, element_count := p.1.length, nodes := p.1 }

mutual

/-- Modelled from the spec words for C6: the pre-order listing of the tree
clamped at `maxDepth` — the node itself followed by the concatenated child
traversals, indices assigned consecutively from `idx`. -/
def preorderSpec (e : Elem) (depth maxDepth idx : Nat) : Option (List TreeNode × Nat) :=
  match e with
  | .node r n t v d cs =>
    if depth > maxDepth then some ([], idx)
    else
      match truncOptValue v with
      | none => none
      | some tv =>
        match preorderSpecList cs (depth + 1) maxDepth (idx + 1) with
        | none => none
        | some (rest, idx') =>
          some
            ({ index := idx
               role := r.getD "Unknown"
               name := n
               title := t
               value := tv
               depth := depth
               children_count := cs.length } :: rest, idx')

def preorderSpecList (es : ElemList) (depth maxDepth idx : Nat) :
    Option (List TreeNode × Nat) :=
  match es with
  | .nil => some ([], idx)
  | .cons c rest =>
    match preorderSpec c depth maxDepth idx with
    | none => none
    | some (out₁, idx₁) =>
      match preorderSpecList rest depth maxDepth idx₁ with
      | none => none
      | some (out₂, idx₂) => some (out₁ ++ out₂, idx₂)

end

/-! ## Modifier flags (`events.rs`, `replay.rs`) -/

/-- Embeds `Modifiers::from_cg_flags` (`events.rs` lines 97-105). -/
def from_cg_flags (flags : Nat) : Nat :=
  (if flags &&& 0x20000 ≠ 0 then 1 else 0) |||
  (if flags &&& 0x40000 ≠ 0 then 2 else 0) |||
  (if flags &&& 0x80000 ≠ 0 then 4 else 0) |||
  (if flags &&& 0x100000 ≠ 0 then 8 else 0) |||
  (if flags &&& 0x10000 ≠ 0 then 16 else 0) |||
  (if flags &&& 0x800000 ≠ 0 then 32 else 0)

/-- Embeds the flag construction in `Replayer::key` (`replay.rs` lines
146-153): only SHIFT, CTRL, OPT and CMD are translated. -/
def replayKeyFlags (modifiers : Nat) : Nat :=
  (if modifiers &&& 1 ≠ 0 then 0x20000 else 0) |||
  (if modifiers &&& 2 ≠ 0 then 0x40000 else 0) |||
  (if modifiers &&& 4 ≠ 0 then 0x80000 else 0) |||
  (if modifiers &&& 8 ≠ 0 then 0x100000 else 0)

/-! ## Replay scroll synthesis (`replay.rs`) -/

inductive ReplayAction where
  | moveTo (x y : Int)
  | wheelLine (wheel1 wheel2 : Nat)
deriving DecidableEq, Repr

/-- Embeds `Replayer::scroll` (`replay.rs` lines 130-144): move to (x, y),
then `wheel_2(Line, dy.unsigned_abs() as u32, dx.unsigned_abs() as u32)`. -/
def Replayer.scroll (x y : Int) (dx dy : Int) : List ReplayAction :=
  [ReplayAction.moveTo x y, ReplayAction.wheelLine dy.natAbs dx.natAbs]

/-! ## Keycode tables (`recorder.rs` / `replay.rs`) -/

/-- Rust `char::is_ascii_lowercase`. -/
def isAsciiLower (c : Char) : Bool :=
  'a' ≤ c && c ≤ 'z'

/-- Rust `char::to_ascii_uppercase`. -/
def toAsciiUpper (c : Char) : Char :=
  if isAsciiLower c then Char.ofNat (c.toNat - 32) else c

/-- The keycode match of `keycode_to_char` (`recorder.rs` lines 670-717)
before the final letter-uppercasing step. -/
def keyCharBase (keycode : Nat) (shift : Bool) : Option Char :=
  match keycode with
  | 0 => some 'a' | 1 => some 's' | 2 => some 'd' | 3 => some 'f'
  | 4 => some 'h' | 5 => some 'g' | 6 => some 'z' | 7 => some 'x'
  | 8 => some 'c' | 9 => some 'v' | 11 => some 'b' | 12 => some 'q'
  | 13 => some 'w' | 14 => some 'e' | 15 => some 'r' | 16 => some 'y'
  | 17 => some 't' | 31 => some 'o' | 32 => some 'u' | 34 => some 'i'
  | 35 => some 'p' | 37 => some 'l' | 38 => some 'j' | 40 => some 'k'
  | 45 => some 'n' | 46 => some 'm'
  | 18 => some (if shift then '!' else '1')
  | 19 => some (if shift then '@' else '2')
  | 20 => some (if shift then '#' else '3')
  | 21 => some (if shift then '$' else '4')
  | 22 => some (if shift then '^' else '6')
  | 23 => some (if shift then '%' else '5')
  | 24 => some (if shift then '+' else '=')
  | 25 => some (if shift then '(' else '9')
  | 26 => some (if shift then '&' else '7')
  | 27 => some (if shift then '_' else '-')
  | 28 => some (if shift then '*' else '8')
  | 29 => some (if shift then ')' else '0')
  | 30 => some (if shift then '\x7d' else ']')
  | 33 => some (if shift then '\x7b' else '[')
  | 39 => some (if shift then '"' else '\'')
  | 41 => some (if shift then ':' else ';')
  | 42 => some (if shift then '|' else '\\')
  | 43 => some (if shift then '<' else ',')
  | 44 => some (if shift then '?' else '/')
  | 47 => some (if shift then '>' else '.')
  | 50 => some (if shift then '~' else '`')
  | 36 => some '\n'
  | 48 => some '\t'
  | 49 => some ' '
  | 51 => some '\x08'
  | _ => none

/-- The `shift` computation of `keycode_to_char`: SHIFT or CAPS set. -/
def shiftOf (mods : Nat) : Bool :=
  (mods &&& 1 != 0) || (mods &&& 16 != 0)

/-- Embeds `keycode_to_char` (`recorder.rs` lines 670-717); `mods` is the
packed modifier byte. -/
def keycode_to_char (keycode : Nat) (mods : Nat) : Option Char :=
  (keyCharBase keycode (shiftOf mods)).map fun c =>
    if shiftOf mods && isAsciiLower c then toAsciiUpper c else c

/-- Rust `char::is_uppercase` restricted to the ASCII letters appearing in
the table. -/
def isUpperCh (c : Char) : Bool :=
  'A' ≤ c && c ≤ 'Z'

/-- Embeds `char_to_keycode` (`replay.rs` lines 199-254). -/
def char_to_keycode (c : Char) : Option (Nat × Bool) :=
  match c with
  | 'a' | 'A' => some (0, isUpperCh c)
  | 'b' | 'B' => some (11, isUpperCh c)
  | 'c' | 'C' => some (8, isUpperCh c)
  | 'd' | 'D' => some (2, isUpperCh c)
  | 'e' | 'E' => some (14, isUpperCh c)
  | 'f' | 'F' => some (3, isUpperCh c)
  | 'g' | 'G' => some (5, isUpperCh c)
  | 'h' | 'H' => some (4, isUpperCh c)
  | 'i' | 'I' => some (34, isUpperCh c)
  | 'j' | 'J' => some (38, isUpperCh c)
  | 'k' | 'K' => some (40, isUpperCh c)
  | 'l' | 'L' => some (37, isUpperCh c)
  | 'm' | 'M' => some (46, isUpperCh c)
  | 'n' | 'N' => some (45, isUpperCh c)
  | 'o' | 'O' => some (31, isUpperCh c)
  | 'p' | 'P' => some (35, isUpperCh c)
  | 'q' | 'Q' => some (12, isUpperCh c)
  | 'r' | 'R' => some (15, isUpperCh c)
  | 's' | 'S' => some (1, isUpperCh c)
  | 't' | 'T' => some (17, isUpperCh c)
  | 'u' | 'U' => some (32, isUpperCh c)
  | 'v' | 'V' => some (9, isUpperCh c)
  | 'w' | 'W' => some (13, isUpperCh c)
  | 'x' | 'X' => some (7, isUpperCh c)
  | 'y' | 'Y' => some (16, isUpperCh c)
  | 'z' | 'Z' => some (6, isUpperCh c)
  | '0' | ')' => some (29, c == ')')
  | '1' | '!' => some (18, c == '!')
  | '2' | '@' => some (19, c == '@')
  | '3' | '#' => some (20, c == '#')
  | '4' | '$' => some (21, c == '$')
  | '5' | '%' => some (23, c == '%')
  | '6' | '^' => some (22, c == '^')
  | '7' | '&' => some (26, c == '&')
  | '8' | '*' => some (28, c == '*')
  | '9' | '(' => some (25, c == '(')
  | ' ' => some (49, false)
  | '\n' => some (36, false)
  | '\t' => some (48, false)
  | '\x08' => some (51, false)
  | '-' | '_' => some (27, c == '_')
  | '=' | '+' => some (24, c == '+')
  | '[' | '\x7b' => some (33, c == '\x7b')
  | ']' | '\x7d' => some (30, c == '\x7d')
  | '\\' | '|' => some (42, c == '|')
  | ';' | ':' => some (41, c == ':')
  | '\'' | '"' => some (39, c == '"')
  | ',' | '<' => some (43, c == '<')
  | '.' | '>' => some (47, c == '>')
  | '/' | '?' => some (44, c == '?')
  | '`' | '~' => some (50, c == '~')
  | _ => none

/-! ## Recorder events (`events.rs`) and the tap-callback KEY_DOWN branch -/

inductive EventData where
  | click (x y : Int) (b n m : Nat)
  | move (x y : Int)
  | scroll (x y : Int) (dx dy : Int)
  | key (k m : Nat)
  | text (s : String)
  | app (n : String) (p : Int)
  | window (a : String) (w : Option String)
  | paste (o : Char) (s : String)
  | context (r : String) (n v : Option String)
deriving DecidableEq, Repr

structure Event where
  t : Nat
  data : EventData
deriving DecidableEq, Repr

structure RecordedWorkflow where
  name : String
  events : List Event
deriving DecidableEq, Repr

def EventData.isText : EventData → Bool
  | .text _ => true
  | _ => false

def hasCmd (mods : Nat) : Bool := mods &&& 8 != 0

def hasCtrl (mods : Nat) : Bool := mods &&& 2 != 0

/-- `Modifiers::any_modifier`: CMD or CTRL present. -/
def anyModifier (mods : Nat) : Bool := mods &&& (8 ||| 2) != 0

/-- Embeds the KEY_DOWN branch of `tap_callback` (`recorder.rs` lines
456-537).  `clipboard` stands for `get_clipboard()` (already filtered to be
non-empty), `buf` is the current text-buffer content.  The result is the
list of events sent synchronously from the callback (in order) and the new
buffer content; `none` models a panic in `truncate`.  The `Paste` events for
Cmd+C / Cmd+X are produced later by spawned helper threads and are not part
of the synchronous emission list. -/
def tapKeyDown (keycode : Nat) (mods : Nat) (clipboard : Option String) (buf : String) :
    Option (List EventData × String) :=
  if hasCmd mods && !hasCtrl mods then
    if keycode = 8 then
      some ([EventData.key keycode mods], buf)
    else if keycode = 7 then
      some ([EventData.key keycode mods], buf)
    else if keycode = 9 then
      match clipboard with
      | some content =>
        match truncate content 100 with
        | none => none
        | some preview =>
          some ([EventData.paste 'v' preview, EventData.key keycode mods], buf)
      | none => some ([EventData.key keycode mods], buf)
    else
      some ([EventData.key keycode mods], buf)
  else if anyModifier mods then
    some ([EventData.key keycode mods], buf)
  else
    match keycode_to_char keycode mods with
    | some c => some ([], buf.push c)
    | none => some ([EventData.key keycode mods], buf)

/-! ## Workflow storage codec (`storage.rs` + serde serialisation of
`events.rs`)

The on-disk `.jsonl` file is modelled as its list of lines (one `writeln!`
per line in `save`, `BufReader::lines` in `load`).  `serde_json` is modelled
by an executable printer/parser pair for the value forms this format emits:
flat JSON objects whose values are strings and integers. -/

inductive JVal where
  | str (s : String)
  | int (n : Int)
deriving DecidableEq, Repr

def lbrace : Char := Char.ofNat 123

def rbrace : Char := Char.ofNat 125

def hexDigitChar (n : Nat) : Char :=
  if n < 10 then Char.ofNat (48 + n) else Char.ofNat (87 + n)

/-- JSON string escaping as `serde_json` performs it: quote, backslash and
the short control escapes, `\u00XX` for remaining control characters,
everything else verbatim. -/
def escapeChar (c : Char) : List Char :=
  if c = '"' then ['\\', '"']
  else if c = '\\' then ['\\', '\\']
  else if c = '\x08' then ['\\', 'b']
  else if c = '\t' then ['\\', 't']
  else if c = '\n' then ['\\', 'n']
  else if c = '\x0c' then ['\\', 'f']
  else if c = '\x0d' then ['\\', 'r']
  else if c.toNat < 32 then
    ['\\', 'u', '0', '0', hexDigitChar (c.toNat / 16), hexDigitChar (c.toNat % 16)]
  else [c]

def printStrLit (s : String) : List Char :=
  '"' :: (s.data.flatMap escapeChar ++ ['"'])

def digitChar (n : Nat) : Char :=
  Char.ofNat (48 + n)

/-- Fuel-driven digit expansion (the fuel keeps the recursion structural and
hence kernel-computable; `natDigits` always supplies enough). -/
def natDigitsF : Nat → Nat → List Char
  | 0, _ => []
  | f + 1, n => if n < 10 then [digitChar n] else natDigitsF f (n / 10) ++ [digitChar (n % 10)]

/-- Decimal digits of a natural number, as Rust `Display` prints it. -/
def natDigits (n : Nat) : List Char :=
  natDigitsF (n + 1) n

def intChars (i : Int) : List Char :=
  if i < 0 then '-' :: natDigits i.natAbs else natDigits i.natAbs

def printJVal : JVal → List Char
  | .str s => printStrLit s
  | .int n => intChars n

def printMembers : List (String × JVal) → List Char
  | [] => []
  | [(k, v)] => printStrLit k ++ ':' :: printJVal v
  | (k, v) :: rest => printStrLit k ++ ':' :: printJVal v ++ ',' :: printMembers rest

def printObj (ms : List (String × JVal)) : List Char :=
  lbrace :: (printMembers ms ++ [rbrace])

def hexVal? (c : Char) : Option Nat :=
  if '0' ≤ c ∧ c ≤ '9' then some (c.toNat - 48)
  else if 'a' ≤ c ∧ c ≤ 'f' then some (c.toNat - 87)
  else if 'A' ≤ c ∧ c ≤ 'F' then some (c.toNat - 55)
  else none

def unescapeChar (e : Char) : Option Char :=
  if e = '"' then some '"'
  else if e = '\\' then some '\\'
  else if e = '/' then some '/'
  else if e = 'b' then some '\x08'
  else if e = 'f' then some '\x0c'
  else if e = 'n' then some '\n'
  else if e = 'r' then some '\x0d'
  else if e = 't' then some '\t'
  else none

/-- Scan a JSON string literal body (after the opening quote), returning the
decoded characters and the remaining input. -/
def scanStrAux : (l : List Char) → Except String (List Char × List Char)
  | [] => .error "unterminated string"
  | c :: rest =>
    if c = '"' then .ok ([], rest)
    else if c = '\\' then
      match rest with
      | [] => .error "truncated escape"
      | e :: rest2 =>
        if e = 'u' then
          match rest2 with
          | h1 :: h2 :: h3 :: h4 :: rest3 =>
            match hexVal? h1, hexVal? h2, hexVal? h3, hexVal? h4 with
            | some a, some b, some c4, some d =>
              let n := ((a * 16 + b) * 16 + c4) * 16 + d
              if n < 0xd800 ∨ (0xe000 ≤ n ∧ n < 0x110000) then
                match scanStrAux rest3 with
                | .error msg => .error msg
                | .ok (s, r) => .ok (Char.ofNat n :: s, r)
              else .error "invalid unicode escape"
            | _, _, _, _ => .error "invalid hex digit"
          | _ => .error "truncated unicode escape"
        else
          match unescapeChar e with
          | none => .error "unknown escape"
          | some u =>
            match scanStrAux rest2 with
            | .error msg => .error msg
            | .ok (s, r) => .ok (u :: s, r)
    else if c.toNat < 32 then .error "control character in string"
    else
      match scanStrAux rest with
      | .error msg => .error msg
      | .ok (s, r) => .ok (c :: s, r)

def digitsToNat (ds : List Char) : Nat :=
  ds.foldl (fun a c => a * 10 + (c.toNat - 48)) 0

def scanNat (l : List Char) : Except String (Nat × List Char) :=
  if l.takeWhile Char.isDigit = [] then .error "expected digit"
  else .ok (digitsToNat (l.takeWhile Char.isDigit), l.dropWhile Char.isDigit)

def scanInt (l : List Char) : Except String (Int × List Char) :=
  match l with
  | '-' :: rest =>
    match scanNat rest with
    | .error e => .error e
    | .ok (n, r) => .ok (-(n : Int), r)
  | l' =>
    match scanNat l' with
    | .error e => .error e
    | .ok (n, r) => .ok ((n : Int), r)

def scanVal (l : List Char) : Except String (JVal × List Char) :=
  match l with
  | '"' :: rest =>
    match scanStrAux rest with
    | .error e => .error e
    | .ok (s, r) => .ok (.str (String.mk s), r)
  | l' =>
    match scanInt l' with
    | .error e => .error e
    | .ok (n, r) => .ok (.int n, r)

/-- Parse the member list of a JSON object, starting just after the opening
brace (the object is known to be non-empty).  The fuel bounds the number of
members (each member consumes input, so `parseMembers` always supplies
enough); it keeps the recursion structural and hence kernel-computable. -/
def parseMembersF : Nat → List Char → Except String (List (String × JVal) × List Char)
  | 0, _ => .error "out of fuel"
  | f + 1, l =>
    match l with
    | '"' :: rest =>
      match scanStrAux rest with
      | .error e => .error e
      | .ok (k, r1) =>
        match r1 with
        | ':' :: r2 =>
          match scanVal r2 with
          | .error e => .error e
          | .ok (v, r3) =>
            match r3 with
            | c3 :: r4 =>
              if c3 = ',' then
                match parseMembersF f r4 with
                | .error e => .error e
                | .ok (ms, rest') => .ok ((String.mk k, v) :: ms, rest')
              else if c3 = rbrace then .ok ([(String.mk k, v)], r4)
              else .error "expected comma or closing brace"
            | [] => .error "unterminated object"
        | _ => .error "expected colon"
    | _ => .error "expected string key"

def parseMembers (l : List Char) : Except String (List (String × JVal) × List Char) :=
  parseMembersF (l.length + 1) l

/-- Parse one JSON object (`serde_json::from_str` on the value forms this
format emits). -/
def parseObj (l : List Char) : Except String (List (String × JVal) × List Char) :=
  match l with
  | [] => .error "empty input"
  | c :: rest =>
    if c = lbrace then
      match rest with
      | [] => .error "unterminated object"
      | c2 :: rest2 => if c2 = rbrace then .ok ([], rest2) else parseMembers rest
    else .error "expected object"

/-- Parse a full line as one JSON object, requiring the input to be fully
consumed (as `serde_json::from_str` does). -/
def parseLine (s : String) : Except String (List (String × JVal)) :=
  match parseObj s.data with
  | .error e => .error e
  | .ok (ms, rest) => if rest.isEmpty then .ok ms else .error "trailing characters"

def jLookup (ms : List (String × JVal)) (k : String) : Option JVal :=
  (ms.find? (fun p => p.1 == k)).map Prod.snd

/-- Last-occurrence lookup: `serde_json::Value` object maps keep the last
value for a duplicated key. -/
def jLookupLast (ms : List (String × JVal)) (k : String) : Option JVal :=
  (ms.reverse.find? (fun p => p.1 == k)).map Prod.snd

def i32lo : Int := -(2 ^ 31)

def i32hi : Int := 2 ^ 31 - 1

def i16lo : Int := -(2 ^ 15)

def i16hi : Int := 2 ^ 15 - 1

def u64hi : Int := 2 ^ 64 - 1

def getIntField (ms : List (String × JVal)) (k : String) (lo hi : Int) : Except String Int :=
  match jLookup ms k with
  | some (.int n) => if lo ≤ n ∧ n ≤ hi then .ok n else .error ("integer out of range: " ++ k)
  | _ => .error ("missing integer field: " ++ k)

def getStrField (ms : List (String × JVal)) (k : String) : Except String String :=
  match jLookup ms k with
  | some (.str s) => .ok s
  | _ => .error ("missing string field: " ++ k)

def getOptStrField (ms : List (String × JVal)) (k : String) : Except String (Option String) :=
  match jLookup ms k with
  | some (.str s) => .ok (some s)
  | none => .ok none
  | some (.int _) => .error ("expected string field: " ++ k)

def getCharField (ms : List (String × JVal)) (k : String) : Except String Char :=
  match getStrField ms k with
  | .error e => .error e
  | .ok s =>
    match s.data with
    | [o] => .ok o
    | _ => .error ("expected one-character string: " ++ k)

/-- Tag and variant fields of one `EventData`, in serde's serialisation
order (`#[serde(tag = "e")]` with single-letter renames; optional fields
omitted when `None`). -/
def eventFields : EventData → String × List (String × JVal)
  | .click x y b n m =>
    ("c", [("x", .int x), ("y", .int y), ("b", .int b), ("n", .int n), ("m", .int m)])
  | .move x y => ("m", [("x", .int x), ("y", .int y)])
  | .scroll x y dx dy =>
    ("s", [("x", .int x), ("y", .int y), ("dx", .int dx), ("dy", .int dy)])
  | .key k m => ("k", [("k", .int k), ("m", .int m)])
  | .text s => ("t", [("s", .str s)])
  | .app n p => ("a", [("n", .str n), ("p", .int p)])
  | .window a w =>
    ("w", ("a", .str a) :: (match w with | some t => [("w", .str t)] | none => []))
  | .paste o s => ("p", [("o", .str (String.singleton o)), ("s", .str s)])
  | .context r n v =>
    ("x", ("r", .str r) ::
      ((match n with | some s => [("n", .str s)] | none => []) ++
       (match v with | some s => [("v", .str s)] | none => [])))

/-- Serialisation of one `Event` (`t` first, then the flattened tagged
`EventData`), as `serde_json::to_writer` emits it. -/
def eventToJson (e : Event) : List (String × JVal) :=
  ("t", .int e.t) :: ("e", .str (eventFields e.data).1) :: (eventFields e.data).2

def printEventLine (e : Event) : String :=
  String.mk (printObj (eventToJson e))

/-- Deserialisation of one event object (serde's derived `Deserialize` for
`Event`/`EventData`: field lookups with integer range checks, unknown tags
rejected). -/
def eventFromJson (ms : List (String × JVal)) : Except String Event := do
  let t ← getIntField ms "t" 0 u64hi
  let tag ← getStrField ms "e"
  match tag with
  | "c" => do
    let x ← getIntField ms "x" i32lo i32hi
    let y ← getIntField ms "y" i32lo i32hi
    let b ← getIntField ms "b" 0 255
    let n ← getIntField ms "n" 0 255
    let m ← getIntField ms "m" 0 255
    pure ⟨t.toNat, .click x y b.toNat n.toNat m.toNat⟩
  | "m" => do
    let x ← getIntField ms "x" i32lo i32hi
    let y ← getIntField ms "y" i32lo i32hi
    pure ⟨t.toNat, .move x y⟩
  | "s" => do
    let x ← getIntField ms "x" i32lo i32hi
    let y ← getIntField ms "y" i32lo i32hi
    let dx ← getIntField ms "dx" i16lo i16hi
    let dy ← getIntField ms "dy" i16lo i16hi
    pure ⟨t.toNat, .scroll x y dx dy⟩
  | "k" => do
    let k ← getIntField ms "k" 0 65535
    let m ← getIntField ms "m" 0 255
    pure ⟨t.toNat, .key k.toNat m.toNat⟩
  | "t" => do
    let s ← getStrField ms "s"
    pure ⟨t.toNat, .text s⟩
  | "a" => do
    let n ← getStrField ms "n"
    let p ← getIntField ms "p" i32lo i32hi
    pure ⟨t.toNat, .app n p⟩
  | "w" => do
    let a ← getStrField ms "a"
    let w ← getOptStrField ms "w"
    pure ⟨t.toNat, .window a w⟩
  | "p" => do
    let o ← getCharField ms "o"
    let s ← getStrField ms "s"
    pure ⟨t.toNat, .paste o s⟩
  | "x" => do
    let r ← getStrField ms "r"
    let n ← getOptStrField ms "n"
    let v ← getOptStrField ms "v"
    pure ⟨t.toNat, .context r n v⟩
  | _ => .error ("unknown event tag: " ++ tag)

def parseEventLine (s : String) : Except String Event :=
  parseLine s >>= eventFromJson

/-- Embeds the metadata line of `WorkflowStorage::save` (`storage.rs` line
38): the workflow name is spliced into the format string verbatim, with no
escaping. -/
def metaLine (name : String) (count : Nat) : String :=
  String.mk (lbrace :: ("\"name\":\"".data ++ name.data ++ "\",\"events\":".data ++
    natDigits count ++ [rbrace]))

/-- Embeds the metadata handling of `WorkflowStorage::load` (`storage.rs`
lines 58-60): `serde_json::from_str::<Value>` then
`meta["name"].as_str().unwrap_or("unknown")`. -/
def parseMetaName (s : String) : Except String String :=
  match parseLine s with
  | .error e => .error e
  | .ok ms =>
    match jLookupLast ms "name" with
    | some (.str v) => .ok v
    | _ => .ok "unknown"

/-- Embeds `WorkflowStorage::save` (`storage.rs` lines 28-48), modelling the
produced file as its list of lines. -/
def save (w : RecordedWorkflow) : List String :=
  metaLine w.name w.events.length :: w.events.map printEventLine

/-- The event-line loop of `WorkflowStorage::load`: non-empty lines are
deserialised, the first error aborts the load. -/
def loadEvents (lines : List String) : Except String (List Event) :=
  match lines with
  | [] => .ok []
  | line :: rest =>
    if line.isEmpty then loadEvents rest
    else do
      let e ← parseEventLine line
      let es ← loadEvents rest
      pure (e :: es)

/-- Embeds `WorkflowStorage::load` (`storage.rs` lines 51-73). -/
def load (lines : List String) : Except String RecordedWorkflow :=
  match lines with
  | [] => .error "Empty file"
  | meta :: rest => do
    let name ← parseMetaName meta
    let events ← loadEvents rest
    pure ⟨name, events⟩

/-! Well-formedness: the integer ranges imposed by the Rust field types
(`i32`, `i16`, `u8`, `u16`, `u64`), and, for the amended C5, names whose
verbatim splice into the metadata line stays a valid JSON string literal. -/

def EventData.wf : EventData → Prop
  | .click x y b n m =>
    i32lo ≤ x ∧ x ≤ i32hi ∧ i32lo ≤ y ∧ y ≤ i32hi ∧ b < 256 ∧ n < 256 ∧ m < 256
  | .move x y => i32lo ≤ x ∧ x ≤ i32hi ∧ i32lo ≤ y ∧ y ≤ i32hi
  | .scroll x y dx dy =>
    i32lo ≤ x ∧ x ≤ i32hi ∧ i32lo ≤ y ∧ y ≤ i32hi ∧
      i16lo ≤ dx ∧ dx ≤ i16hi ∧ i16lo ≤ dy ∧ dy ≤ i16hi
  | .key k m => k < 65536 ∧ m < 256
  | .text _ => True
  | .app _ p => i32lo ≤ p ∧ p ≤ i32hi
  | .window _ _ => True
  | .paste _ _ => True
  | .context _ _ _ => True

def Event.wf (e : Event) : Prop :=
  (e.t : Int) ≤ u64hi ∧ e.data.wf

def goodNameChar (c : Char) : Prop :=
  c ≠ '"' ∧ c ≠ '\\' ∧ 32 ≤ c.toNat

def RecordedWorkflow.wf (w : RecordedWorkflow) : Prop :=
  (∀ c ∈ w.name.data, goodNameChar c) ∧ ∀ e ∈ w.events, e.wf

instance : DecidablePred goodNameChar := fun c => by
  unfold goodNameChar; infer_instance

instance (d : EventData) : Decidable d.wf := by
  cases d <;> (unfold EventData.wf; infer_instance)

instance (e : Event) : Decidable e.wf := by
  unfold Event.wf; infer_instance

instance (w : RecordedWorkflow) : Decidable w.wf := by
  unfold RecordedWorkflow.wf; infer_instance

/-! ## Concrete fixtures used by the counterexamples and witnesses -/

def demoButton1 : Elem := .node (some "Button") none (some "OK") none none .nil

def demoButton2 : Elem := .node (some "Button") none (some "Cancel") none none .nil

def demoWindow : Elem :=
  .node (some "Window") none none none none (.cons demoButton1 (.cons demoButton2 .nil))

/-- The selector string `role:Button AND index:0` after parsing. -/
def indexSelector : Selector :=
  ⟨[⟨.role, .equals, "Button"⟩, ⟨.index, .equals, "0"⟩]⟩

/-- The tree result of walking `demoWindow` with `max_depth = 5`. -/
def demoTreeResult : TreeResult :=
  ⟨"app", 3,
    [⟨0, "Window", none, none, none, 0, 2⟩,
     ⟨1, "Button", none, some "OK", none, 1, 0⟩,
     ⟨2, "Button", none, some "Cancel", none, 1, 0⟩]⟩

/-- An element whose `value` attribute is the empty string while `title` is
non-empty. -/
def emptyValueElem : Elem := .node (some "Edit") (some "entry") (some "Title") (some "") none .nil

/-- 99 ASCII characters followed by one 2-byte character: 101 bytes, and
byte 100 falls inside the last character. -/
def badTreeValue : String := String.mk (List.replicate 99 'a' ++ [Char.ofNat 233])

/-- 96 ASCII characters followed by three 2-byte characters: 102 bytes, and
byte 97 (`max - 3`) falls inside a character. -/
def badPasteContent : String :=
  String.mk (List.replicate 96 'a' ++ List.replicate 3 (Char.ofNat 233))

/-- A value-line with event tag `z`, outside the defined tag set. -/
def unknownTagLine : String := String.mk (printObj [("t", .int 2), ("e", .str "z")])

/-- A workflow file whose second event line carries the unknown tag `z`. -/
def unknownTagFile : List String :=
  [metaLine "w" 2, printEventLine ⟨1, .move 1 2⟩, unknownTagLine]

/-- A workflow whose name contains a double quote. -/
def badNameWorkflow : RecordedWorkflow := ⟨String.mk ['a', '"', 'b'], []⟩

/-- A workflow containing one event of each variant (the spec's round-trip
scenario). -/
def demoWorkflow : RecordedWorkflow :=
  ⟨"demo run",
    [⟨0, .click 10 20 0 1 0⟩,
     ⟨5, .move 1 2⟩,
     ⟨7, .scroll 3 4 (-1) 2⟩,
     ⟨9, .key 36 8⟩,
     ⟨12, .text "hello"⟩,
     ⟨15, .app "Safari" 123⟩,
     ⟨16, .window "Safari" (some "Home")⟩,
     ⟨20, .paste 'c' "clip"⟩,
     ⟨21, .context "AXButton" (some "OK") none⟩]⟩

/-! # Theorems -/

/-! ## C1: the index condition is never applied after candidate collection -/

/-- C1: FALSIFIED on the code.  On a window with two `Button` children and
the selector `role:Button AND index:0`, `find_all` skips the index condition
during the walk but never selects `candidates[0]` afterwards: it returns
both candidates, and `find` fails with `MultipleMatches 2` instead of
returning the 0-th element of the DFS candidate list. -/
theorem c1_index_condition_never_applied :
    Locator.find_all indexSelector 30 demoWindow = [demoButton1, demoButton2] ∧
    Locator.find indexSelector 30 demoWindow = .error (.multipleMatches 2) :=
  ⟨rfl, rfl⟩

/-! ## C4: modifier round trip through the replayer's flags -/

/-- C4: counterexample.  The replayer's key synthesis sets no flag for CAPS
(bit 4, value 16), so the round trip through `Modifiers::from_cg_flags`
returns 0, not 16, although 16 ≤ 0x3F. -/
theorem c4_counterexample :
    from_cg_flags (replayKeyFlags 16) = 0 ∧ (0 : Nat) ≠ 16 := by decide

/-- C4 (amended): the replayer translates only SHIFT, CTRL, OPT and CMD, so
for every modifier byte m in 0..=0x3F the round trip yields `m &&& 0xF`; in
particular it yields `m` exactly when m has no CAPS or FN bit (m ≤ 0xF). -/
theorem c4_roundtrip_low_bits :
    ∀ m : Nat, m < 64 → from_cg_flags (replayKeyFlags m) = m &&& 15 := by decide

/-- Witness for `c4_roundtrip_low_bits` at m = 9 (SHIFT+CMD). -/
theorem c4_roundtrip_low_bits_witness :
    9 < 64 ∧ from_cg_flags (replayKeyFlags 9) = 9 &&& 15 :=
  ⟨by decide, c4_roundtrip_low_bits 9 (by decide)⟩

/-! ## C7: scroll replay loses the sign of the deltas -/

/-- C7: FALSIFIED direction-preservation.  Replaying `Scroll` at (5,6) with
dx = 0, dy = -3 does first move the cursor and emits exactly one wheel
event, but the wheel event carries `dy.unsigned_abs() = 3` lines: the sign
of the recorded delta is lost (the claim requires the emitted line delta to
equal -3). -/
theorem c7_scroll_sign_lost :
    Replayer.scroll 5 6 0 (-3) = [.moveTo 5 6, .wheelLine 3 0] ∧
    ((3 : Int) ≠ (-3 : Int)) := by decide

/-! ## C8: text() takes the first present field, not the first non-empty -/

/-- C8: counterexample.  On an element whose `value` is the empty string and
whose `title` is "Title", `text()` returns `Some("")` — the empty value is
NOT skipped in favour of the later non-empty field, contradicting the
claim's first-non-empty reading (`textSpec`). -/
theorem c8_counterexample :
    Elem.text emptyValueElem = some "" ∧
    textSpec emptyValueElem = some "Title" ∧
    Elem.text emptyValueElem ≠ textSpec emptyValueElem := by decide

/-- C8 (amended): `text()` returns the first PRESENT (`Some`) string among
value, title, description, name in that fixed order — including an empty
string — and `None` only when all four attributes are absent. -/
theorem c8_text_first_present : ∀ e : Elem, Elem.text e = textFirstSome e := by
  intro e
  cases e with
  | node r n t v d cs =>
    cases v <;> cases t <;> cases d <;> cases n <;> rfl

/-! ## C9: the 100-character truncations can panic and exceed 100 chars -/

/-- C9: FALSIFIED totality.  The tree-value truncation slices the first 100
BYTES (`&v[..100]`) and panics when byte 100 falls inside a multi-byte
character (`badTreeValue`); the recorder's `truncate` slices `max - 3` bytes
and panics likewise (`badPasteContent`).  Moreover, on a 101-`a` input the
tree truncation returns 100 characters plus "...", i.e. 103 > 100
characters. -/
theorem c9_truncation_panics :
    truncTreeValue badTreeValue = none ∧
    truncate badPasteContent 100 = none ∧
    truncTreeValue (String.mk (List.replicate 101 'a')) =
      some (String.mk (List.replicate 100 'a' ++ ['.', '.', '.'])) ∧
    (String.mk (List.replicate 100 'a' ++ ['.', '.', '.'])).data.length = 103 := by
  refine ⟨by decide, by decide, by decide, by decide⟩

/-! ## C2: no text-buffer flush happens on modified / non-printable keys -/

/-- C2: counterexample.  With a non-empty buffer "hi", a key-down for
keycode 1 ('s') with the CMD modifier emits only the `Key` event: no `Text`
event with the pending buffer precedes it, and the buffer stays pending. -/
theorem c2_counterexample :
    tapKeyDown 1 8 none "hi" = some ([EventData.key 1 8], "hi") ∧
    EventData.text "hi" ∉ [EventData.key 1 8] := by decide

theorem hasCmd_of_and_ten (m : Nat) (h : m &&& 10 = 0) : hasCmd m = false := by
  have ha : (10 : Nat) &&& 8 = 8 := by decide
  have h1 : m &&& 10 &&& 8 = m &&& 8 := by rw [Nat.and_assoc, ha]
  rw [h] at h1
  simp only [Nat.zero_and] at h1
  simp [hasCmd, ← h1]

theorem hasCtrl_of_and_ten (m : Nat) (h : m &&& 10 = 0) : hasCtrl m = false := by
  have ha : (10 : Nat) &&& 2 = 2 := by decide
  have h1 : m &&& 10 &&& 2 = m &&& 2 := by rw [Nat.and_assoc, ha]
  rw [h] at h1
  simp only [Nat.zero_and] at h1
  simp [hasCtrl, ← h1]

/-- C2 (amended): on a key-down that is non-printable or carries CMD/CTRL,
the recorder emits the `Key` event (last in the synchronous emissions),
emits NO `Text` event, and leaves the pending buffer untouched; the buffer
is flushed only by the idle-timeout check or on stop. -/
theorem c2_no_flush_on_modified_key :
    ∀ (keycode mods : Nat) (clip : Option String) (buf : String)
      (evs : List EventData) (buf' : String),
      (keycode_to_char keycode mods = none ∨ hasCmd mods = true ∨ hasCtrl mods = true) →
      tapKeyDown keycode mods clip buf = some (evs, buf') →
      buf' = buf ∧ (∀ ev ∈ evs, ev.isText = false) ∧
        evs.getLast? = some (.key keycode mods) := by
  intro k m clip buf evs buf' hcond htap
  unfold tapKeyDown at htap
  split_ifs at htap with h1 h8 h7 h9 h2
  · simp only [Option.some.injEq, Prod.mk.injEq] at htap
    obtain ⟨he, hb⟩ := htap
    subst he hb
    simp [EventData.isText]
  · simp only [Option.some.injEq, Prod.mk.injEq] at htap
    obtain ⟨he, hb⟩ := htap
    subst he hb
    simp [EventData.isText]
  · -- Cmd+V: possible Paste before the Key event
    split at htap
    · split at htap
      · cases htap
      · simp only [Option.some.injEq, Prod.mk.injEq] at htap
        obtain ⟨he, hb⟩ := htap
        subst he hb
        simp [EventData.isText]
    · simp only [Option.some.injEq, Prod.mk.injEq] at htap
      obtain ⟨he, hb⟩ := htap
      subst he hb
      simp [EventData.isText]
  · simp only [Option.some.injEq, Prod.mk.injEq] at htap
    obtain ⟨he, hb⟩ := htap
    subst he hb
    simp [EventData.isText]
  · simp only [Option.some.injEq, Prod.mk.injEq] at htap
    obtain ⟨he, hb⟩ := htap
    subst he hb
    simp [EventData.isText]
  · -- no CMD/CTRL: the key must be non-printable, contradicting a Some char
    have hm10 : m &&& 10 = 0 := by
      simp only [anyModifier] at h2
      simpa using h2
    split at htap
    · -- printable key: contradicts the hypothesis
      rename_i c hch
      rcases hcond with hnone | hcmd | hctrl
      · rw [hch] at hnone; cases hnone
      · rw [hasCmd_of_and_ten m hm10] at hcmd; cases hcmd
      · rw [hasCtrl_of_and_ten m hm10] at hctrl; cases hctrl
    · simp only [Option.some.injEq, Prod.mk.injEq] at htap
      obtain ⟨he, hb⟩ := htap
      subst he hb
      simp [EventData.isText]

/-- Witness for `c2_no_flush_on_modified_key`: keycode 53 (Escape, not in
the char table) with no modifiers and buffer "ab". -/
theorem c2_no_flush_witness :
    (keycode_to_char 53 0 = none ∨ hasCmd 0 = true ∨ hasCtrl 0 = true) ∧
    ("ab" = "ab" ∧ (∀ ev ∈ [EventData.key 53 0], ev.isText = false) ∧
      [EventData.key 53 0].getLast? = some (.key 53 0)) :=
  ⟨Or.inl (by decide),
    c2_no_flush_on_modified_key 53 0 none "ab" [EventData.key 53 0] "ab"
      (Or.inl (by decide)) (by decide)⟩

/-! ## C10: the recorder and replayer keyboard tables are mutually
consistent -/

/-- C10: for every keycode and modifier byte for which the recorder's
`keycode_to_char` yields a character c, the replayer's `char_to_keycode`
maps c back to the same keycode, and when the modifiers contain neither
SHIFT nor CAPS the returned shift flag is false — so replaying a coalesced
`Text` event re-emits the original keycodes. -/
theorem c10_keyboard_tables_consistent :
    ∀ (k m : Nat) (c : Char), keycode_to_char k m = some c →
      ∃ s, char_to_keycode c = some (k, s) ∧
        ((m &&& 1 = 0 ∧ m &&& 16 = 0) → s = false) := by
  intro k m c h
  unfold keycode_to_char at h
  cases hs : shiftOf m with
  | false =>
    rw [hs] at h
    cases hb : keyCharBase k false with
    | none => rw [hb] at h; cases h
    | some c0 =>
      rw [hb] at h
      simp only [Option.map_some', Bool.false_and, Bool.false_eq_true, if_false,
        Option.some.injEq] at h
      subst h
      unfold keyCharBase at hb
      split at hb <;>
        first
        | (simp only [Bool.false_eq_true, if_false, Option.some.injEq] at hb
           subst hb
           exact ⟨false, by decide, fun _ => rfl⟩)
        | cases hb
  | true =>
    rw [hs] at h
    cases hb : keyCharBase k true with
    | none => rw [hb] at h; cases h
    | some c0 =>
      rw [hb] at h
      simp only [Option.map_some', Bool.true_and, Option.some.injEq] at h
      subst h
      unfold keyCharBase at hb
      split at hb <;>
        first
        | (simp only [if_true, Option.some.injEq] at hb
           subst hb
           first
           | exact ⟨false, by decide, fun _ => rfl⟩
           | exact ⟨true, by decide,
               fun hc => absurd hs (by simp [shiftOf, hc.1, hc.2])⟩)
        | cases hb

/-- Witness for `c10_keyboard_tables_consistent` at keycode 0 ('a'), no
modifiers. -/
theorem c10_keyboard_tables_witness :
    keycode_to_char 0 0 = some 'a' ∧
    ∃ s, char_to_keycode 'a' = some (0, s) ∧
      (((0 : Nat) &&& 1 = 0 ∧ (0 : Nat) &&& 16 = 0) → s = false) :=
  ⟨by decide, c10_keyboard_tables_consistent 0 0 'a' (by decide)⟩

/-! ## C6: tree-walk invariants -/

mutual

/-- The accumulator-threading `build_tree` produces exactly the pre-order
listing (`preorderSpec`) appended to its accumulator. -/
theorem buildTree_eq_preorder (e : Elem) (d m : Nat) (acc : List TreeNode) (i : Nat) :
    buildTree e d m acc i = (preorderSpec e d m i).map (fun p => (acc ++ p.1, p.2)) := by
  cases e with
  | node r n t v dsc cs =>
    unfold buildTree preorderSpec
    by_cases hd : d > m
    · simp [hd]
    · rw [if_neg hd, if_neg hd]
      cases hv : truncOptValue v with
      | none => simp
      | some tv =>
        simp only
        rw [buildTreeList_eq_preorder cs (d + 1) m _ (i + 1)]
        cases hp : preorderSpecList cs (d + 1) m (i + 1) with
        | none => simp
        | some p => simp

theorem buildTreeList_eq_preorder (es : ElemList) (d m : Nat) (acc : List TreeNode) (i : Nat) :
    buildTreeList es d m acc i = (preorderSpecList es d m i).map (fun p => (acc ++ p.1, p.2)) := by
  cases es with
  | nil => simp [buildTreeList, preorderSpecList]
  | cons c rest =>
    unfold buildTreeList preorderSpecList
    rw [buildTree_eq_preorder c d m acc i]
    cases hp : preorderSpec c d m i with
    | none => simp
    | some p =>
      obtain ⟨out₁, i₁⟩ := p
      simp only [Option.map_some']
      rw [buildTreeList_eq_preorder rest d m (acc ++ out₁) i₁]
      cases hq : preorderSpecList rest d m i₁ with
      | none => simp
      | some q => simp

end

mutual

/-- Index, depth and length bookkeeping of the pre-order listing. -/
theorem preorder_props (e : Elem) (d m i : Nat) (out : List TreeNode) (i' : Nat)
    (h : preorderSpec e d m i = some (out, i')) :
    i' = i + out.length ∧
    (∀ j nd, out.get? j = some nd → nd.index = i + j) ∧
    (∀ nd ∈ out, d ≤ nd.depth ∧ nd.depth ≤ m) := by
  cases e with
  | node r n t v dsc cs =>
    unfold preorderSpec at h
    by_cases hd : d > m
    · rw [if_pos hd] at h
      simp only [Option.some.injEq, Prod.mk.injEq] at h
      obtain ⟨ho, hi⟩ := h
      subst ho hi
      simp
    · rw [if_neg hd] at h
      cases hv : truncOptValue v with
      | none => rw [hv] at h; cases h
      | some tv =>
        rw [hv] at h
        cases hp : preorderSpecList cs (d + 1) m (i + 1) with
        | none => rw [hp] at h; cases h
        | some p =>
          obtain ⟨rest, i₂⟩ := p
          rw [hp] at h
          simp only [Option.some.injEq, Prod.mk.injEq] at h
          obtain ⟨hout, hi'⟩ := h
          subst hout hi'
          obtain ⟨IH1, IH2, IH3⟩ := preorder_props_list cs (d + 1) m (i + 1) rest i₂ hp
          refine ⟨by simp [IH1]; omega, ?_, ?_⟩
          · intro j nd hj
            cases j with
            | zero =>
              simp only [List.get?_cons_zero, Option.some.injEq] at hj
              subst hj
              simp
            | succ j' =>
              simp only [List.get?_cons_succ] at hj
              have := IH2 j' nd hj
              omega
          · intro nd hnd
            rcases List.mem_cons.mp hnd with hh | ht
            · subst hh
              constructor <;> simp <;> omega
            · have := IH3 nd ht
              omega

theorem preorder_props_list (es : ElemList) (d m i : Nat) (out : List TreeNode) (i' : Nat)
    (h : preorderSpecList es d m i = some (out, i')) :
    i' = i + out.length ∧
    (∀ j nd, out.get? j = some nd → nd.index = i + j) ∧
    (∀ nd ∈ out, d ≤ nd.depth ∧ nd.depth ≤ m) := by
  cases es with
  | nil =>
    unfold preorderSpecList at h
    simp only [Option.some.injEq, Prod.mk.injEq] at h
    obtain ⟨ho, hi⟩ := h
    subst ho hi
    simp
  | cons c rest =>
    unfold preorderSpecList at h
    split at h
    · cases h
    · rename_i out₁ i₁ h1
      split at h
      · cases h
      · rename_i out₂ i₂ h2
        simp only [Option.some.injEq, Prod.mk.injEq] at h
        obtain ⟨hout, hi'⟩ := h
        subst hout hi'
        obtain ⟨A1, A2, A3⟩ := preorder_props c d m i out₁ i₁ h1
        obtain ⟨B1, B2, B3⟩ := preorder_props_list rest d m i₁ out₂ i₂ h2
        refine ⟨by simp [List.length_append]; omega, ?_, ?_⟩
        · intro j nd hj
          by_cases hjl : j < out₁.length
          · rw [List.get?_append hjl] at hj
            exact A2 j nd hj
          · rw [List.get?_append_right (by omega)] at hj
            have := B2 (j - out₁.length) nd hj
            omega
        · intro nd hnd
          rcases List.mem_append.mp hnd with hh | ht
          · exact A3 nd hh
          · exact B3 nd ht

end

theorem preorderSpec_too_deep (e : Elem) (d m i : Nat) (h : m < d) :
    preorderSpec e d m i = some ([], i) := by
  cases e with
  | node r n t v dsc cs =>
    unfold preorderSpec
    rw [if_pos (by omega)]

theorem preorderSpecList_too_deep (es : ElemList) (d m i : Nat) (h : m < d) :
    preorderSpecList es d m i = some ([], i) := by
  cases es with
  | nil => rfl
  | cons c rest =>
    unfold preorderSpecList
    simp [preorderSpec_too_deep c d m i h, preorderSpecList_too_deep rest d m i h]

/-- C6: for every tree produced by `Desktop::tree`, the node at position i
carries index i, every node's depth is at most `max_depth`, the node list is
exactly the clamped pre-order listing of the element tree, and with
`max_depth = 0` the result contains only the root's node. -/
theorem c6_tree_invariants :
    ∀ (app : String) (root : Elem) (maxDepth : Nat) (res : TreeResult),
      Desktop.tree app root maxDepth = some res →
      (∀ j nd, res.nodes.get? j = some nd → nd.index = j) ∧
      (∀ nd ∈ res.nodes, nd.depth ≤ maxDepth) ∧
      (∃ i', preorderSpec root 0 maxDepth 0 = some (res.nodes, i')) ∧
      (maxDepth = 0 →
        ∃ tv, truncOptValue root.value = some tv ∧
          res.nodes = [⟨0, root.role.getD "Unknown", root.name, root.title, tv, 0,
            root.children.length⟩]) := by
  intro app root maxDepth res htree
  unfold Desktop.tree at htree
  rw [buildTree_eq_preorder root 0 maxDepth [] 0] at htree
  cases hp : preorderSpec root 0 maxDepth 0 with
  | none => rw [hp] at htree; cases htree
  | some p =>
    obtain ⟨out, i'⟩ := p
    rw [hp] at htree
    simp only [Option.map_some', Option.some.injEq, List.nil_append] at htree
    obtain ⟨IH1, IH2, IH3⟩ := preorder_props root 0 maxDepth 0 out i' hp
    have hnodes : res.nodes = out := by rw [← htree]
    refine ⟨?_, ?_, ?_, ?_⟩
    · intro j nd hj
      rw [hnodes] at hj
      simpa using IH2 j nd hj
    · intro nd hnd
      rw [hnodes] at hnd
      exact (IH3 nd hnd).2
    · exact ⟨i', by rw [hnodes]⟩
    · intro hm0
      subst hm0
      cases root with
      | node r n t v dsc cs =>
        unfold preorderSpec at hp
        rw [if_neg (by omega)] at hp
        cases hv : truncOptValue v with
        | none => rw [hv] at hp; cases hp
        | some tv =>
          rw [hv] at hp
          rw [preorderSpecList_too_deep cs 1 0 1 (by omega)] at hp
          simp only [Option.some.injEq, Prod.mk.injEq] at hp
          obtain ⟨hout, _⟩ := hp
          refine ⟨tv, by simpa [Elem.value] using hv, ?_⟩
          rw [hnodes, ← hout]
          simp [Elem.role, Elem.name, Elem.title, Elem.children]

/-! ## Codec lemmas for C3 / C5 -/

theorem stringMk_data (s : String) : String.mk s.data = s := by
  cases s; rfl

theorem hexVal_hexDigitChar : ∀ d : Nat, d < 16 → hexVal? (hexDigitChar d) = some d := by
  decide

theorem digitChar_isDigit : ∀ d : Nat, d < 10 → (digitChar d).isDigit = true := by
  decide

theorem digitChar_val : ∀ d : Nat, d < 10 → (digitChar d).toNat - 48 = d := by
  decide

theorem natDigitsF_ne_nil : ∀ f n : Nat, n < f → natDigitsF f n ≠ [] := by
  intro f
  induction f with
  | zero => intro n h; omega
  | succ f ih =>
    intro n h
    unfold natDigitsF
    by_cases h10 : n < 10
    · simp [h10]
    · rw [if_neg h10]
      simp

theorem natDigitsF_digits : ∀ f n : Nat, n < f → ∀ c ∈ natDigitsF f n, c.isDigit = true := by
  intro f
  induction f with
  | zero => intro n h; omega
  | succ f ih =>
    intro n h c hc
    unfold natDigitsF at hc
    by_cases h10 : n < 10
    · rw [if_pos h10] at hc
      simp only [List.mem_singleton] at hc
      subst hc
      exact digitChar_isDigit n h10
    · rw [if_neg h10] at hc
      rcases List.mem_append.mp hc with hh | ht
      · exact ih (n / 10) (by omega) c hh
      · simp only [List.mem_singleton] at ht
        subst ht
        exact digitChar_isDigit (n % 10) (by omega)

theorem digitsToNat_append1 (ds : List Char) (d : Char) :
    digitsToNat (ds ++ [d]) = digitsToNat ds * 10 + (d.toNat - 48) := by
  simp [digitsToNat, List.foldl_append]

theorem digitsToNat_natDigitsF : ∀ f n : Nat, n < f → digitsToNat (natDigitsF f n) = n := by
  intro f
  induction f with
  | zero => intro n h; omega
  | succ f ih =>
    intro n h
    unfold natDigitsF
    by_cases h10 : n < 10
    · rw [if_pos h10]
      have := digitChar_val n h10
      simp [digitsToNat]
      omega
    · rw [if_neg h10]
      rw [digitsToNat_append1, ih (n / 10) (by omega)]
      have := digitChar_val (n % 10) (by omega)
      omega

theorem natDigits_ne_nil (n : Nat) : natDigits n ≠ [] :=
  natDigitsF_ne_nil (n + 1) n (by omega)

theorem natDigits_digits (n : Nat) : ∀ c ∈ natDigits n, c.isDigit = true :=
  natDigitsF_digits (n + 1) n (by omega)

theorem digitsToNat_natDigits (n : Nat) : digitsToNat (natDigits n) = n :=
  digitsToNat_natDigitsF (n + 1) n (by omega)

theorem takeWhile_all_append (p : Char → Bool) :
    ∀ (ds r : List Char), (∀ c ∈ ds, p c = true) →
      (∀ c, r.head? = some c → p c = false) →
      (ds ++ r).takeWhile p = ds ∧ (ds ++ r).dropWhile p = r := by
  intro ds
  induction ds with
  | nil =>
    intro r _ hr
    cases r with
    | nil => simp
    | cons c r' =>
      have := hr c rfl
      simp [List.takeWhile_cons, List.dropWhile_cons, this]
  | cons d ds ih =>
    intro r hds hr
    have hd : p d = true := hds d (by simp)
    have := ih r (fun c hc => hds c (by simp [hc])) hr
    simp [List.takeWhile_cons, List.dropWhile_cons, hd, this.1, this.2]

theorem scanNat_digits (n : Nat) (r : List Char)
    (hr : ∀ c, r.head? = some c → c.isDigit = false) :
    scanNat (natDigits n ++ r) = .ok (n, r) := by
  obtain ⟨ht, hd⟩ := takeWhile_all_append Char.isDigit (natDigits n) r (natDigits_digits n) hr
  unfold scanNat
  rw [if_neg (by rw [ht]; exact natDigits_ne_nil n)]
  simp only [ht, hd, digitsToNat_natDigits]

theorem scanStrAux_raw : ∀ (cs rest : List Char), (∀ c ∈ cs, goodNameChar c) →
    scanStrAux (cs ++ '"' :: rest) = .ok (cs, rest) := by
  intro cs
  induction cs with
  | nil =>
    intro rest _
    show scanStrAux ('"' :: rest) = .ok ([], rest)
    unfold scanStrAux
    simp
  | cons c cs ih =>
    intro rest hgood
    obtain ⟨hq, hb, hc⟩ := hgood c (by simp)
    simp only [List.cons_append]
    unfold scanStrAux
    rw [if_neg hq, if_neg hb, if_neg (by omega)]
    rw [ih rest (fun x hx => hgood x (by simp [hx]))]

theorem scanStrAux_escaped : ∀ (cs rest : List Char),
    scanStrAux (cs.flatMap escapeChar ++ '"' :: rest) = .ok (cs, rest) := by
  intro cs
  induction cs with
  | nil =>
    intro rest
    show scanStrAux ('"' :: rest) = .ok ([], rest)
    unfold scanStrAux
    simp
  | cons c cs ih =>
    intro rest
    simp only [List.flatMap_cons, List.append_assoc]
    by_cases h1 : c = '"'
    · subst h1
      rw [show escapeChar '"' = ['\\', '"'] from rfl]
      simp only [List.cons_append, List.nil_append]
      unfold scanStrAux
      simp [unescapeChar, ih rest]
    · by_cases h2 : c = '\\'
      · subst h2
        rw [show escapeChar '\\' = ['\\', '\\'] from rfl]
        simp only [List.cons_append, List.nil_append]
        unfold scanStrAux
        simp [unescapeChar, ih rest]
      · by_cases h3 : c = '\x08'
        · subst h3
          rw [show escapeChar '\x08' = ['\\', 'b'] from rfl]
          simp only [List.cons_append, List.nil_append]
          unfold scanStrAux
          simp [unescapeChar, ih rest]
        · by_cases h4 : c = '\t'
          · subst h4
            rw [show escapeChar '\t' = ['\\', 't'] from rfl]
            simp only [List.cons_append, List.nil_append]
            unfold scanStrAux
            simp [unescapeChar, ih rest]
          · by_cases h5 : c = '\n'
            · subst h5
              rw [show escapeChar '\n' = ['\\', 'n'] from rfl]
              simp only [List.cons_append, List.nil_append]
              unfold scanStrAux
              simp [unescapeChar, ih rest]
            · by_cases h6 : c = '\x0c'
              · subst h6
                rw [show escapeChar '\x0c' = ['\\', 'f'] from rfl]
                simp only [List.cons_append, List.nil_append]
                unfold scanStrAux
                simp [unescapeChar, ih rest]
              · by_cases h7 : c = '\x0d'
                · subst h7
                  rw [show escapeChar '\x0d' = ['\\', 'r'] from rfl]
                  simp only [List.cons_append, List.nil_append]
                  unfold scanStrAux
                  simp [unescapeChar, ih rest]
                · by_cases h8 : c.toNat < 32
                  · have hd1 := hexVal_hexDigitChar (c.toNat / 16) (by omega)
                    have hd2 := hexVal_hexDigitChar (c.toNat % 16) (by omega)
                    have h0 : hexVal? '0' = some 0 := by decide
                    simp only [escapeChar, if_neg h1, if_neg h2, if_neg h3, if_neg h4,
                      if_neg h5, if_neg h6, if_neg h7, if_pos h8]
                    simp only [List.cons_append]
                    unfold scanStrAux
                    simp only [reduceCtorEq, reduceIte, h0, hd1, hd2]
                    rw [if_pos (Or.inl (by omega))]
                    simp only [List.nil_append]
                    rw [ih rest]
                    rw [if_neg (by decide : ¬('\\' = '"'))]
                    have hval : ((0 * 16 + 0) * 16 + c.toNat / 16) * 16 + c.toNat % 16
                        = c.toNat := by omega
                    simp only [hval, Char.ofNat_toNat]
                  · simp only [escapeChar, if_neg h1, if_neg h2, if_neg h3, if_neg h4,
                      if_neg h5, if_neg h6, if_neg h7, if_neg h8]
                    simp only [List.cons_append, List.singleton_append, List.nil_append]
                    unfold scanStrAux
                    rw [if_neg h1, if_neg h2, if_neg (by omega)]
                    rw [ih rest]

theorem intChars_ne_nil (i : Int) : intChars i ≠ [] := by
  unfold intChars
  by_cases hi : i < 0
  · simp [hi]
  · simp [hi, natDigits_ne_nil]

theorem scanInt_intChars (i : Int) (r : List Char)
    (hr : ∀ c, r.head? = some c → c.isDigit = false) :
    scanInt (intChars i ++ r) = .ok (i, r) := by
  unfold intChars
  by_cases hi : i < 0
  · rw [if_pos hi]
    simp only [List.cons_append]
    show (match scanNat (natDigits i.natAbs ++ r) with
        | Except.error e => Except.error e
        | Except.ok (n, rr) => Except.ok (-(n : Int), rr)) = Except.ok (i, r)
    rw [scanNat_digits i.natAbs r hr]
    have hni : -(i.natAbs : Int) = i := by omega
    simp only [hni]
  · rw [if_neg hi]
    obtain ⟨d, ds, hds⟩ : ∃ d ds, natDigits i.natAbs = d :: ds := by
      cases h : natDigits i.natAbs with
      | nil => exact absurd h (natDigits_ne_nil _)
      | cons d ds => exact ⟨d, ds, rfl⟩
    have hd : d.isDigit = true := natDigits_digits i.natAbs d (by simp [hds])
    rw [hds]
    simp only [List.cons_append]
    unfold scanInt
    split
    · rename_i rest heq
      rw [List.cons.injEq] at heq
      have hmd : ('-').isDigit = false := by decide
      rw [heq.1] at hd
      simp [hmd] at hd
    · rw [← List.cons_append, ← hds, scanNat_digits i.natAbs r hr]
      have hni : (i.natAbs : Int) = i := by omega
      simp [hni]

theorem scanVal_str (s : String) (r : List Char) :
    scanVal (printStrLit s ++ r) = .ok (.str s, r) := by
  unfold printStrLit
  simp only [List.cons_append, List.append_assoc, List.singleton_append]
  show (match scanStrAux (s.data.flatMap escapeChar ++ '"' :: r) with
      | Except.error e => Except.error e
      | Except.ok (cs, rr) => Except.ok (JVal.str (String.mk cs), rr)) =
    Except.ok (JVal.str s, r)
  rw [scanStrAux_escaped s.data r]

theorem scanVal_int (i : Int) (r : List Char)
    (hr : ∀ c, r.head? = some c → c.isDigit = false) :
    scanVal (intChars i ++ r) = .ok (.int i, r) := by
  obtain ⟨d, ds, hds⟩ : ∃ d ds, intChars i = d :: ds := by
    cases h : intChars i with
    | nil => exact absurd h (intChars_ne_nil _)
    | cons d ds => exact ⟨d, ds, rfl⟩
  have hdq : d ≠ '"' := by
    unfold intChars at hds
    by_cases hi : i < 0
    · rw [if_pos hi] at hds
      rw [List.cons.injEq] at hds
      rw [← hds.1]
      decide
    · rw [if_neg hi] at hds
      have hdd : d.isDigit = true := natDigits_digits i.natAbs d (by simp [hds])
      intro hcon
      rw [hcon] at hdd
      simp at hdd
  rw [hds]
  simp only [List.cons_append]
  unfold scanVal
  split
  · rename_i rest heq
    rw [List.cons.injEq] at heq
    exact absurd heq.1 hdq
  · rw [← List.cons_append, ← hds, scanInt_intChars i r hr]

theorem rbrace_not_digit : ∀ c : Char, (rbrace :: ([] : List Char)).head? = some c →
    c.isDigit = false := by
  intro c hc
  simp only [List.head?_cons, Option.some.injEq] at hc
  subst hc
  decide

theorem comma_head_not_digit (t : List Char) :
    ∀ c : Char, ((',' :: t).head? = some c) → c.isDigit = false := by
  intro c hc
  simp only [List.head?_cons, Option.some.injEq] at hc
  subst hc
  decide

theorem rbrace_head_not_digit (t : List Char) :
    ∀ c : Char, ((rbrace :: t).head? = some c) → c.isDigit = false := by
  intro c hc
  simp only [List.head?_cons, Option.some.injEq] at hc
  subst hc
  decide

theorem parseMembersF_print : ∀ (ms : List (String × JVal)) (f : Nat) (rest : List Char),
    ms ≠ [] → ms.length ≤ f →
    parseMembersF f (printMembers ms ++ rbrace :: rest) = .ok (ms, rest) := by
  intro ms
  induction ms with
  | nil => intro f rest h _; exact absurd rfl h
  | cons kv ms ih =>
    obtain ⟨k, v⟩ := kv
    intro f rest _ hf
    obtain ⟨f', rfl⟩ : ∃ f', f = f' + 1 :=
      ⟨f - 1, by simp only [List.length_cons] at hf; omega⟩
    cases ms with
    | nil =>
      unfold printMembers parseMembersF
      simp only [printStrLit, List.cons_append, List.append_assoc, List.singleton_append, List.nil_append]
      try simp only []
      rw [scanStrAux_escaped k.data (':' :: (printJVal v ++ rbrace :: rest))]
      try simp only []
      cases v with
      | str s =>
        simp only [printJVal]
        rw [scanVal_str s (rbrace :: rest)]
        try simp only []
        rw [if_neg (by decide : ¬(rbrace = ','))]
        simp [stringMk_data]
      | int n =>
        simp only [printJVal]
        rw [scanVal_int n (rbrace :: rest) (rbrace_head_not_digit rest)]
        try simp only []
        rw [if_neg (by decide : ¬(rbrace = ','))]
        simp [stringMk_data]
    | cons kv2 ms2 =>
      show parseMembersF (f' + 1)
        ((printStrLit k ++ ':' :: printJVal v ++ ',' :: printMembers (kv2 :: ms2)) ++
          rbrace :: rest) = _
      unfold parseMembersF
      simp only [printStrLit, List.cons_append, List.append_assoc, List.singleton_append, List.nil_append]
      try simp only []
      rw [scanStrAux_escaped k.data
        (':' :: (printJVal v ++ ',' :: (printMembers (kv2 :: ms2) ++ rbrace :: rest)))]
      try simp only []
      cases v with
      | str s =>
        simp only [printJVal]
        rw [scanVal_str s (',' :: (printMembers (kv2 :: ms2) ++ rbrace :: rest))]
        try simp only [if_true]
        rw [ih f' rest (by simp) (by simp only [List.length_cons] at hf ⊢; omega)]
        try simp [stringMk_data]
      | int n =>
        simp only [printJVal]
        rw [scanVal_int n (',' :: (printMembers (kv2 :: ms2) ++ rbrace :: rest))
          (comma_head_not_digit _)]
        try simp only [if_true]
        rw [ih f' rest (by simp) (by simp only [List.length_cons] at hf ⊢; omega)]
        try simp [stringMk_data]

theorem printMembers_cons_head (k : String) (v : JVal) (ms : List (String × JVal)) :
    ∃ tail, printMembers ((k, v) :: ms) = '"' :: tail := by
  cases ms with
  | nil => exact ⟨_, rfl⟩
  | cons kv2 ms2 => exact ⟨_, rfl⟩

theorem printMembers_length_ge : ∀ ms : List (String × JVal),
    ms.length ≤ (printMembers ms).length := by
  intro ms
  induction ms with
  | nil => simp [printMembers]
  | cons kv ms ih =>
    obtain ⟨k, v⟩ := kv
    cases ms with
    | nil => simp [printMembers, printStrLit]
    | cons kv2 ms2 =>
      have hp : printMembers ((k, v) :: kv2 :: ms2)
          = printStrLit k ++ ':' :: printJVal v ++ ',' :: printMembers (kv2 :: ms2) := rfl
      rw [hp]
      simp only [List.length_append, List.length_cons] at ih ⊢
      omega

theorem parseObj_print (ms : List (String × JVal)) (hne : ms ≠ []) :
    parseObj (printObj ms) = .ok (ms, []) := by
  obtain ⟨k, v, ms', rfl⟩ : ∃ k v ms', ms = (k, v) :: ms' := by
    cases ms with
    | nil => exact absurd rfl hne
    | cons kv ms' => exact ⟨kv.1, kv.2, ms', by rw [Prod.mk.eta]⟩
  obtain ⟨tail, htail⟩ := printMembers_cons_head k v ms'
  unfold printObj parseObj
  try simp only []
  try simp only [if_true]
  try rw [if_pos rfl]
  rw [htail]
  simp only [List.cons_append]
  rw [if_neg (by decide)]
  rw [← List.cons_append, ← htail]
  unfold parseMembers
  have hlen : ((k, v) :: ms').length ≤
      (printMembers ((k, v) :: ms') ++ rbrace :: []).length + 1 := by
    have := printMembers_length_ge ((k, v) :: ms')
    simp only [List.length_append, List.length_cons, List.length_nil] at this ⊢
    omega
  rw [show printMembers ((k, v) :: ms') ++ [rbrace]
      = printMembers ((k, v) :: ms') ++ rbrace :: [] from rfl]
  rw [parseMembersF_print ((k, v) :: ms')
    ((printMembers ((k, v) :: ms') ++ rbrace :: []).length + 1) [] (by simp) hlen]

theorem parseLine_print (ms : List (String × JVal)) (hne : ms ≠ []) :
    parseLine (String.mk (printObj ms)) = .ok ms := by
  unfold parseLine
  rw [show (String.mk (printObj ms)).data = printObj ms from rfl]
  rw [parseObj_print ms hne]
  simp

theorem eventFromJson_eventToJson (e : Event) (hwf : e.wf) :
    eventFromJson (eventToJson e) = .ok e := by
  obtain ⟨t, d⟩ := e
  obtain ⟨ht, hd⟩ := hwf
  cases d with
  | click x y b n m =>
    obtain ⟨h1, h2, h3, h4, h5, h6, h7⟩ := hd
    have hb : (b : Int) ≤ 255 := by omega
    have hn : (n : Int) ≤ 255 := by omega
    have hm : (m : Int) ≤ 255 := by omega
    simp [eventFromJson, eventToJson, eventFields, getIntField, getStrField, jLookup,
      List.find?, Except.bind, bind, pure, Except.pure, ht, h1, h2, h3, h4, hb, hn, hm]
  | move x y =>
    obtain ⟨h1, h2, h3, h4⟩ := hd
    simp [eventFromJson, eventToJson, eventFields, getIntField, getStrField, jLookup,
      List.find?, Except.bind, bind, pure, Except.pure, ht, h1, h2, h3, h4]
  | scroll x y dx dy =>
    obtain ⟨h1, h2, h3, h4, h5, h6, h7, h8⟩ := hd
    simp [eventFromJson, eventToJson, eventFields, getIntField, getStrField, jLookup,
      List.find?, Except.bind, bind, pure, Except.pure, ht, h1, h2, h3, h4, h5, h6, h7, h8]
  | key k m =>
    obtain ⟨h1, h2⟩ := hd
    have hk : (k : Int) ≤ 65535 := by omega
    have hm : (m : Int) ≤ 255 := by omega
    simp [eventFromJson, eventToJson, eventFields, getIntField, getStrField, jLookup,
      List.find?, Except.bind, bind, pure, Except.pure, ht, hk, hm]
  | text s =>
    simp [eventFromJson, eventToJson, eventFields, getIntField, getStrField, jLookup,
      List.find?, Except.bind, bind, pure, Except.pure, ht]
  | app n p =>
    obtain ⟨h1, h2⟩ := hd
    simp [eventFromJson, eventToJson, eventFields, getIntField, getStrField, jLookup,
      List.find?, Except.bind, bind, pure, Except.pure, ht, h1, h2]
  | window a w =>
    cases w with
    | none =>
      simp [eventFromJson, eventToJson, eventFields, getIntField, getStrField,
        getOptStrField, jLookup, List.find?, Except.bind, bind, pure, Except.pure, ht]
    | some title =>
      simp [eventFromJson, eventToJson, eventFields, getIntField, getStrField,
        getOptStrField, jLookup, List.find?, Except.bind, bind, pure, Except.pure, ht]
  | paste o s =>
    simp [eventFromJson, eventToJson, eventFields, getIntField, getStrField, getCharField,
      String.singleton, jLookup, List.find?, Except.bind, bind, pure, Except.pure, ht]
  | context r n v =>
    cases n <;> cases v <;>
      simp [eventFromJson, eventToJson, eventFields, getIntField, getStrField,
        getOptStrField, jLookup, List.find?, Except.bind, bind, pure, Except.pure, ht]

/-- Witness for `c6_tree_invariants` on the two-button demo window at
`max_depth = 5`. -/
theorem c6_tree_invariants_witness :
    Desktop.tree "app" demoWindow 5 = some demoTreeResult ∧
    ((∀ j nd, demoTreeResult.nodes.get? j = some nd → nd.index = j) ∧
     (∀ nd ∈ demoTreeResult.nodes, nd.depth ≤ 5) ∧
     (∃ i', preorderSpec demoWindow 0 5 0 = some (demoTreeResult.nodes, i')) ∧
     (5 = 0 →
       ∃ tv, truncOptValue demoWindow.value = some tv ∧
         demoTreeResult.nodes = [⟨0, demoWindow.role.getD "Unknown", demoWindow.name,
           demoWindow.title, tv, 0, demoWindow.children.length⟩])) :=
  ⟨rfl, c6_tree_invariants "app" demoWindow 5 demoTreeResult rfl⟩

/-! ## Save/load round trip (C5) and unknown-tag handling (C3) -/

theorem stringMk_cons_isEmpty (c : Char) (l : List Char) :
    (String.mk (c :: l)).isEmpty = false := by
  cases hb : (String.mk (c :: l)).isEmpty with
  | false => rfl
  | true =>
    rw [String.isEmpty_iff] at hb
    have hd := congrArg String.data hb
    simp at hd

theorem printObj_isEmpty (ms : List (String × JVal)) :
    (String.mk (printObj ms)).isEmpty = false := by
  rw [show printObj ms = lbrace :: (printMembers ms ++ [rbrace]) from rfl]
  exact stringMk_cons_isEmpty _ _

theorem parseEventLine_print (e : Event) (hwf : e.wf) :
    parseEventLine (printEventLine e) = .ok e := by
  unfold parseEventLine printEventLine
  rw [parseLine_print (eventToJson e) (by simp [eventToJson])]
  exact eventFromJson_eventToJson e hwf

theorem loadEvents_print (es : List Event) (h : ∀ e ∈ es, e.wf) :
    loadEvents (es.map printEventLine) = .ok es := by
  induction es with
  | nil => rfl
  | cons e rest ih =>
    simp only [List.map_cons]
    unfold loadEvents
    rw [show printEventLine e = String.mk (printObj (eventToJson e)) from rfl,
      printObj_isEmpty]
    simp only [Bool.false_eq_true, if_false]
    rw [show String.mk (printObj (eventToJson e)) = printEventLine e from rfl,
      parseEventLine_print e (h e (by simp)), ih (fun x hx => h x (by simp [hx]))]
    rfl

theorem escapeChar_good (c : Char) (h : goodNameChar c) : escapeChar c = [c] := by
  obtain ⟨h1, h2, h3⟩ := h
  unfold escapeChar
  rw [if_neg h1, if_neg h2,
    if_neg (fun hc => by subst hc; exact absurd h3 (by decide)),
    if_neg (fun hc => by subst hc; exact absurd h3 (by decide)),
    if_neg (fun hc => by subst hc; exact absurd h3 (by decide)),
    if_neg (fun hc => by subst hc; exact absurd h3 (by decide)),
    if_neg (fun hc => by subst hc; exact absurd h3 (by decide)),
    if_neg (by omega)]

theorem flatMap_escapeChar_good : ∀ l : List Char, (∀ c ∈ l, goodNameChar c) →
    l.flatMap escapeChar = l := by
  intro l
  induction l with
  | nil => intro _; rfl
  | cons c t ih =>
    intro h
    rw [List.flatMap_cons, escapeChar_good c (h c (by simp)),
      ih (fun x hx => h x (by simp [hx]))]
    rfl

theorem printStrLit_good (s : String) (h : ∀ c ∈ s.data, goodNameChar c) :
    printStrLit s = '"' :: (s.data ++ ['"']) := by
  unfold printStrLit
  rw [flatMap_escapeChar_good s.data h]

theorem metaLine_eq_printObj (name : String) (count : Nat)
    (h : ∀ c ∈ name.data, goodNameChar c) :
    metaLine name count =
      String.mk (printObj [("name", JVal.str name), ("events", JVal.int count)]) := by
  unfold metaLine printObj printMembers
  congr 1
  rw [show printJVal (JVal.str name) = printStrLit name from rfl,
    printStrLit_good name h,
    show printMembers [("events", JVal.int (count : Int))]
      = "\"events\"".data ++ ':' :: intChars count from rfl,
    show intChars (count : Int) = natDigits count by
      unfold intChars
      rw [if_neg (by omega), Int.natAbs_ofNat],
    show ("\"name\":\"" : String).data
      = '"' :: 'n' :: 'a' :: 'm' :: 'e' :: '"' :: ':' :: '"' :: [] from rfl,
    show printStrLit "name"
      = '"' :: 'n' :: 'a' :: 'm' :: 'e' :: '"' :: [] from rfl,
    show ("\",\"events\":" : String).data
      = '"' :: ',' :: '"' :: 'e' :: 'v' :: 'e' :: 'n' :: 't' :: 's' :: '"' :: ':' :: [] from rfl,
    show ("\"events\"" : String).data
      = '"' :: 'e' :: 'v' :: 'e' :: 'n' :: 't' :: 's' :: '"' :: [] from rfl]
  simp [List.append_assoc]

theorem parseMetaName_good (name : String) (count : Nat)
    (h : ∀ c ∈ name.data, goodNameChar c) :
    parseMetaName (metaLine name count) = .ok name := by
  unfold parseMetaName
  rw [metaLine_eq_printObj name count h, parseLine_print _ (by simp)]
  rfl

/-- C5: counterexample.  The claim quantifies over every `RecordedWorkflow`,
but `save` splices the workflow name into the metadata line verbatim
(`storage.rs` line 38, a raw `format!`), so a name containing a double quote
produces a metadata line that `load` cannot parse back. -/
theorem c5_counterexample :
    load (save badNameWorkflow) = .error "expected comma or closing brace" := by
  rfl

/-- C5 (amended): for every well-formed workflow — field values within their
Rust integer ranges and a name without `"`, `\` or control characters —
`load` after `save` returns the workflow exactly: equal name, equal event
count, and (stronger than the claim's re-serialisation check) equal
events. -/
theorem c5_save_load_roundtrip (w : RecordedWorkflow) (hwf : w.wf) :
    load (save w) = .ok w := by
  obtain ⟨name, events⟩ := w
  obtain ⟨hname, hevents⟩ := hwf
  unfold save load
  simp only []
  rw [parseMetaName_good name events.length hname,
    loadEvents_print events hevents]
  rfl

/-- Witness for `c5_save_load_roundtrip`: the spec's own scenario, a
workflow with one event of each variant. -/
theorem c5_save_load_roundtrip_witness :
    demoWorkflow.wf ∧ load (save demoWorkflow) = .ok demoWorkflow :=
  ⟨by decide, c5_save_load_roundtrip demoWorkflow (by decide)⟩

theorem eventFromJson_unknown_tag (t : Int) (tag : String)
    (ht : 0 ≤ t ∧ t ≤ u64hi)
    (htag : tag ∉ ["c", "m", "s", "k", "t", "a", "w", "p", "x"]) :
    eventFromJson [("t", JVal.int t), ("e", JVal.str tag)] =
      .error ("unknown event tag: " ++ tag) := by
  simp only [List.mem_cons, not_or] at htag
  unfold eventFromJson
  rw [show getIntField [("t", JVal.int t), ("e", JVal.str tag)] "t" 0 u64hi
      = if 0 ≤ t ∧ t ≤ u64hi then Except.ok t else .error "integer out of range: t"
      from rfl,
    if_pos ht]
  rw [show getStrField [("t", JVal.int t), ("e", JVal.str tag)] "e"
      = Except.ok tag from rfl]
  show (match tag with
    | "c" => _ | "m" => _ | "s" => _ | "k" => _ | "t" => _
    | "a" => _ | "w" => _ | "p" => _ | "x" => _
    | _ => Except.error ("unknown event tag: " ++ tag)) = _
  split <;> first | rfl | simp_all

theorem loadEvents_append_error (es : List Event) (hes : ∀ e ∈ es, e.wf)
    (l : String) (msg : String) (hmt : l.isEmpty = false)
    (hp : parseEventLine l = .error msg) :
    loadEvents (es.map printEventLine ++ [l]) = .error msg := by
  induction es with
  | nil =>
    simp only [List.map_nil, List.nil_append]
    unfold loadEvents
    rw [hmt]
    simp only [Bool.false_eq_true, if_false]
    rw [hp]
    rfl
  | cons e rest ih =>
    simp only [List.map_cons, List.cons_append]
    unfold loadEvents
    rw [show printEventLine e = String.mk (printObj (eventToJson e)) from rfl,
      printObj_isEmpty]
    simp only [Bool.false_eq_true, if_false]
    rw [show String.mk (printObj (eventToJson e)) = printEventLine e from rfl,
      parseEventLine_print e (hes e (by simp)),
      ih (fun x hx => hes x (by simp [hx]))]
    rfl

/-- C3: counterexample.  A two-event file whose second event line carries
the tag `z` makes `load` fail with `unknown event tag: z` instead of
skipping the line and returning the one known event. -/
theorem c3_counterexample :
    load unknownTagFile = .error "unknown event tag: z" ∧
    load [metaLine "w" 2, printEventLine ⟨1, .move 1 2⟩] =
      .ok ⟨"w", [⟨1, .move 1 2⟩]⟩ := by
  constructor
  · rfl
  · rfl

/-- C3 (amended): `load` does NOT skip unknown tags.  For every file made of
a metadata line, well-formed known-event lines and one trailing line whose
tag is outside the defined set `c,m,s,k,t,a,w,p,x`, `load` fails with
`unknown event tag`, because `storage.rs` line 68 propagates every
`serde_json::from_str::<Event>` error with `?`. -/
theorem c3_load_rejects_unknown_tag (name : String) (count : Nat)
    (es : List Event) (t : Int) (tag : String)
    (hname : ∀ c ∈ name.data, goodNameChar c)
    (hes : ∀ e ∈ es, e.wf)
    (ht : 0 ≤ t ∧ t ≤ u64hi)
    (htag : tag ∉ ["c", "m", "s", "k", "t", "a", "w", "p", "x"]) :
    load (metaLine name count :: (es.map printEventLine ++
        [String.mk (printObj [("t", JVal.int t), ("e", JVal.str tag)])])) =
      .error ("unknown event tag: " ++ tag) := by
  unfold load
  simp only []
  rw [parseMetaName_good name count hname,
    loadEvents_append_error es hes _ _ (printObj_isEmpty _)
      (by
        unfold parseEventLine
        rw [parseLine_print _ (by simp)]
        exact eventFromJson_unknown_tag t tag ht htag)]
  rfl

/-- Witness for `c3_load_rejects_unknown_tag`: one known `move` event line
followed by a tag-`z` line. -/
theorem c3_load_rejects_unknown_tag_witness :
    (∀ c ∈ ("w" : String).data, goodNameChar c) ∧
    (∀ e ∈ [(⟨1, .move 1 2⟩ : Event)], e.wf) ∧
    ((0:Int) ≤ 2 ∧ (2:Int) ≤ u64hi) ∧
    ("z" : String) ∉ ["c", "m", "s", "k", "t", "a", "w", "p", "x"] ∧
    load (metaLine "w" 2 :: ([(⟨1, .move 1 2⟩ : Event)].map printEventLine ++
        [String.mk (printObj [("t", JVal.int 2), ("e", JVal.str "z")])])) =
      .error ("unknown event tag: " ++ "z") :=
  ⟨by decide, by decide, by decide, by decide,
    c3_load_rejects_unknown_tag "w" 2 [⟨1, .move 1 2⟩] 2 "z"
      (by decide) (by decide) (by decide) (by decide)⟩

end BB
